import Mathlib

/-!
# Verification of pyaedt's version/desktop bookkeeping and EDB component facade

Shallow embedding of the pure logic of `pyaedt/desktop.py` and
`pyaedt/edb_core/components.py`.  Python strings are modelled as `List Char`;
Python functions that can raise return `Option`/sum types; interactions with
the external COM process (project closing, scope release, process kill,
launch) are modelled as event traces; Python `float` results produced by
parsing decimal literals are modelled at exact precision by `ℚ`.
-/

namespace PyStr

/-- ASCII decimal digit test (`int()` in the source only ever sees ASCII
digits in the modelled inputs). -/
def isDigitB (c : Char) : Bool := '0' ≤ c && c ≤ '9'

/-- Value of a single decimal digit character. -/
def digVal (c : Char) : Nat := c.toNat - 48

/-- `Option` digit value: models Python `int` on a single character. -/
def charToDigit? (c : Char) : Option Nat :=
  if isDigitB c then some (digVal c) else none

/-- Accumulating decimal parse of a digit list. -/
def charsToNatAux : Nat → List Char → Option Nat
  | acc, [] => some acc
  | acc, c :: cs =>
    match charToDigit? c with
    | some d => charsToNatAux (10 * acc + d) cs
    | none => none

/-- Python `int(s)` for an unsigned decimal string: fails on the empty string
or on any non-digit character. -/
def charsToNat? : List Char → Option Nat
  | [] => none
  | c :: cs => charsToNatAux 0 (c :: cs)

/-- Python `int(s)` with an optional leading sign. -/
def charsToInt? : List Char → Option Int
  | '-' :: rest => (charsToNat? rest).map (fun n => -(n : Int))
  | '+' :: rest => (charsToNat? rest).map (fun n => (n : Int))
  | s => (charsToNat? s).map (fun n => (n : Int))

/-- Fuel-driven decimal rendering of a natural number (low digit last). -/
def toDecimalAux : Nat → Nat → List Char
  | 0, _ => []
  | fuel + 1, n =>
    if n < 10 then [Nat.digitChar n]
    else toDecimalAux fuel (n / 10) ++ [Nat.digitChar (n % 10)]

/-- Decimal rendering of a natural number, as Python `str` produces it. -/
def toDecimal (n : Nat) : List Char := toDecimalAux (n + 1) n

/-- Python `str` of an integer. -/
def intToChars (i : Int) : List Char :=
  if i < 0 then '-' :: toDecimal i.natAbs else toDecimal i.toNat

/-- Boolean prefix test used by the scanning primitives. -/
def isPrefixB : List Char → List Char → Bool
  | [], _ => true
  | _ :: _, [] => false
  | p :: ps, c :: cs => p = c && isPrefixB ps cs

/-- Fuel-driven scan for Python `str.replace`: replaces every non-overlapping
occurrence of `pat`, left to right.  The fuel is always instantiated with the
length of the scanned list, which bounds the number of steps. -/
def replaceAux (pat rep : List Char) : Nat → List Char → List Char
  | _, [] => []
  | 0, s => s
  | fuel + 1, c :: cs =>
    if isPrefixB pat (c :: cs) then
      rep ++ replaceAux pat rep fuel (cs.drop (pat.length - 1))
    else
      c :: replaceAux pat rep fuel cs

/-- Python `s.replace(pat, rep)` (the source never passes an empty pattern). -/
def replace (s pat rep : List Char) : List Char := replaceAux pat rep s.length s

/-- Python `s.split(d)` for a single-character separator. -/
def splitOnChar : List Char → Char → List (List Char)
  | [], _ => [[]]
  | c :: cs, d =>
    if c = d then [] :: splitOnChar cs d
    else
      match splitOnChar cs d with
      | [] => [[c]]
      | t :: ts => (c :: t) :: ts

end PyStr

namespace Desktop

open PyStr

/-- The fixed prefix of installed-version environment variables. -/
def ansysemRoot : List Char := "ANSYSEM_ROOT".toList

/-- Key derivation of `Desktop.version_keys` for one installed-version
environment-variable name (`desktop.py`, lines 331–342): strip the
`ANSYSEM_ROOT` prefix with `str.replace`, parse the first two characters as
the version and the third as the release, shift pre-2020 numbering, and
format `"20{version}.{release}"`.  `none` models a raised exception
(`IndexError`/`ValueError`). -/
def version_key_of_env_var (version_env_var : List Char) : Option (List Char) :=
  let current_version_id := replace version_env_var ansysemRoot []
  match charsToInt? (current_version_id.take 2), current_version_id.get? 2 with
  | some version, some releaseChar =>
    match charsToInt? [releaseChar] with
    | some release =>
      let (version, release) :=
        if version < 20 then
          if release < 3 then (version - 1, release) else (version, release - 2)
        else (version, release)
      some ('2' :: '0' :: intToChars version ++ '.' :: intToChars release)
    | none => none
  | _, _ => none

/-- `Desktop.version_keys`: derive a key for every name returned by the
installed-version scan, in order.  A failure on any name models the
exception propagating out of the property. -/
def version_keys : List (List Char) → Option (List (List Char))
  | [] => some []
  | name :: rest =>
    match version_key_of_env_var name, version_keys rest with
    | some k, some ks => some (k :: ks)
    | _, _ => none

/-- `Desktop.current_version` = `self.version_keys[0]`; `none` models the
`IndexError` on an empty installation list or a derivation failure. -/
def current_version (version_list : List (List Char)) : Option (List Char) :=
  (version_keys version_list).bind (fun ks => ks.get? 0)

/-- `get_version_env_variable` (`desktop.py`, lines 600–622): split the key at
`'.'`, parse `values[0][2:]` and `values[1]`, undo the pre-2020 shift, and
rebuild `"ANSYSEM_ROOT" + str(version) + str(release)`. -/
def get_version_env_variable (version_id : List Char) : Option (List Char) :=
  let values := splitOnChar version_id '.'
  match values.get? 0, values.get? 1 with
  | some v0, some v1 =>
    match charsToInt? (v0.drop 2), charsToInt? v1 with
    | some version, some release =>
      let (version, release) :=
        if version < 20 then
          if release < 3 then (version + 1, release) else (version, release + 2)
        else (version, release)
      some (ansysemRoot ++ intToChars version ++ intToChars release)
    | _, _ => none
  | _, _ => none

end Desktop

namespace Desktop

/-- Unfolding of `version_keys` on a non-empty installation list. -/
theorem version_keys_cons_some (name : List Char) (rest : List (List Char))
    (ks : List (List Char)) (h : version_keys (name :: rest) = some ks) :
    ∃ k ks', version_key_of_env_var name = some k ∧ ks = k :: ks' := by
  cases hk : version_key_of_env_var name with
  | none =>
    rw [version_keys, hk] at h
    simp at h
  | some k =>
    rw [version_keys, hk] at h
    cases hr : version_keys rest with
    | none => simp [hr] at h
    | some ks' =>
      rw [hr] at h
      simp only [Option.some.injEq] at h
      exact ⟨k, ks', rfl, h.symm⟩

/-- Externally observable COM/process actions of the desktop module. -/
inductive Event where
  /-- Models a call `desktop.CloseProject(prj)`. -/
  | closeProject (name : String)
  /-- Models a call `COMUtil.ReleaseCOMObjectScope(COMUtil.PInvokeProxyAPI, i)` with
  scope index `i`. -/
  | release (i : Nat)
  /-- Models a call `os.kill(pid, 9)`. -/
  | kill (pid : Int)
  /-- Models the statement `del Module.oDesktop`. -/
  | delDesktop
  /-- Models the statement `del Module.pyaedt_initialized`. -/
  | delInitFlag
deriving DecidableEq

/-- The pythonnet COM backends distinguished by `release_desktop`
(`_com` in `desktop.py`; under `pywin32` the function does nothing). -/
inductive ComBackend where
  | pythonnet
  | pythonnet_v3
  | pywin32
deriving DecidableEq

/-- Fuel-driven translation of the release loops
`while i <= scopeID: COMUtil.ReleaseCOMObjectScope(..., e); i += 1`:
at loop counter `i` the scope index passed to the release call is `emit i`
(`emit = id` at lines 189–191 and 221–224, `emit = fun _ => 0` at
lines 206–210).  The fuel is always instantiated above the iteration count. -/
def releaseLoop (emit : Nat → Nat) : Nat → Nat → Nat → List Event
  | 0, _, _ => []
  | fuel + 1, i, bound =>
    if i ≤ bound then Event.release (emit i) :: releaseLoop emit fuel (i + 1) bound
    else []

/-- The release loop visits the scope indices `emit i, …, emit bound` once
each, in order. -/
theorem releaseLoop_eq_range' (emit : Nat → Nat) :
    ∀ fuel i bound, bound + 1 - i ≤ fuel →
      releaseLoop emit fuel i bound
        = (List.range' i (bound + 1 - i)).map (fun j => Event.release (emit j)) := by
  intro fuel
  induction fuel with
  | zero =>
    intro i bound h
    have h0 : bound + 1 - i = 0 := Nat.le_zero.mp h
    simp [releaseLoop, h0]
  | succ fuel ih =>
    intro i bound h
    by_cases hib : i ≤ bound
    · have h1 : bound + 1 - i = (bound + 1 - (i + 1)) + 1 := by omega
      rw [releaseLoop, if_pos hib, ih (i + 1) bound (by omega), h1, List.range'_succ]
      simp
    · have h0 : bound + 1 - i = 0 := by omega
      rw [releaseLoop, if_neg hib, h0]
      simp

/-- `release_desktop` (`desktop.py`, lines 163–232), as a function from the
call arguments and the relevant external state to the Python return value
(`none` models falling off the end, returning `None`) and the trace of
external actions.  `projects` is `desktop.GetProjectList()`, `scopeID` is
`desktop.ScopeID`, `pid` is `oDesktop.GetProcessID()`, and `killOk`/`delOk`
say whether `os.kill(pid, 9)` / `del Module.oDesktop` succeed (each is
wrapped in `try/except` or decides the returned boolean). -/
def release_desktop (com : ComBackend) (close_projects close_desktop : Bool)
    (projects : List String) (scopeID : Nat) (pid : Int) (killOk delOk : Bool) :
    Option Bool × List Event :=
  match com with
  | .pythonnet =>
    let closes := if close_projects then projects.map Event.closeProject else []
    let rels := releaseLoop (fun i => i) (scopeID + 2) 0 scopeID
    let dels := if delOk then [Event.delDesktop] else []
    (none, closes ++ rels ++ dels)
  | .pythonnet_v3 =>
    let closes := if close_projects then projects.map Event.closeProject else []
    if close_desktop then
      -- line 209 passes the literal scope index 0 on every iteration
      let rels := releaseLoop (fun _ => 0) 7 0 5
      if killOk then
        if delOk then (some true, closes ++ rels ++ [Event.kill pid, Event.delDesktop])
        else (some false, closes ++ rels ++ [Event.kill pid])
      else (some false, closes ++ rels)
    else
      let rels := releaseLoop (fun i => i) 7 0 5
      let dels := if delOk then [Event.delDesktop] else []
      -- `del Module.pyaedt_initialized` is attempted inside `try/except: pass`
      (none, closes ++ rels ++ dels ++ [Event.delInitFlag])
  | .pywin32 => (none, [])

/-- `force_close_desktop` (`desktop.py`, lines 235–284).  `projects` is
`none` when `GetProjectList` raises (the handler only logs).  The body runs
only when the process id is positive; otherwise the function returns `None`
having done nothing. -/
def force_close_desktop (pid : Int) (projects : Option (List String))
    (killOk delOk : Bool) : Option Bool × List Event :=
  if 0 < pid then
    let closes :=
      match projects with
      | some ps => ps.map Event.closeProject
      | none => []
    -- Lines 257–263: the guard `while i <= scopeID` reads the local name `i`,
    -- which is never bound in this function, so the first guard evaluation
    -- raises NameError; the surrounding `except` swallows it and the loop
    -- body never runs.
    let unboundI : Option Nat := none
    let rels : List Event :=
      match unboundI with
      | none => []
      | some i0 => releaseLoop (fun _ => 0) 7 i0 5
    let kills : List Event :=
      if killOk then Event.kill pid :: (if delOk then [Event.delDesktop] else []) else []
    (some (killOk && delOk), closes ++ rels ++ [Event.delInitFlag] ++ kills)
  else (none, [])

end Desktop

open PyStr Desktop in
/-- C1: for every installed-version environment-variable name
`ANSYSEM_ROOT<VV><R>` (`VV` a two-digit number, `R` a digit),
`Desktop.version_keys` derives the key `"20VV.R"` when `VV ≥ 20`,
`"20(VV-1).R"` when `VV < 20 ∧ R < 3`, and `"20VV.(R-2)"` when
`VV < 20 ∧ R ≥ 3`; and `Desktop.current_version` is the key derived from the
first name of the installed list. -/
theorem C1_version_key_derivation :
    (∀ vv < 100, ∀ r < 10, 10 ≤ vv →
      version_key_of_env_var (ansysemRoot ++ toDecimal vv ++ toDecimal r)
        = some ('2' :: '0' ::
            toDecimal (if 20 ≤ vv then vv else if r < 3 then vv - 1 else vv) ++
            '.' :: toDecimal (if 20 ≤ vv then r else if r < 3 then r else r - 2)))
    ∧ (∀ name rest ks, version_keys (name :: rest) = some ks →
        current_version (name :: rest) = version_key_of_env_var name) := by
  constructor
  · decide
  · intro name rest ks h
    obtain ⟨k, ks', hk, hcons⟩ := version_keys_cons_some name rest ks h
    rw [current_version, h, hcons, hk]
    rfl

open PyStr Desktop in
/-- Witness for C1 at `ANSYSEM_ROOT211` (so `VV = 21 ≥ 20`, `R = 1`), and for
the `current_version` part at the singleton installation list. -/
theorem C1_version_key_derivation_witness :
    ((21 < 100 ∧ 1 < 10 ∧ 10 ≤ 21) ∧
      version_key_of_env_var (ansysemRoot ++ toDecimal 21 ++ toDecimal 1)
        = some ('2' :: '0' ::
            toDecimal (if 20 ≤ 21 then 21 else if 1 < 3 then 21 - 1 else 21) ++
            '.' :: toDecimal (if 20 ≤ 21 then 1 else if 1 < 3 then 1 else 1 - 2)))
    ∧ (version_keys ["ANSYSEM_ROOT211".toList] = some ["2021.1".toList] ∧
        current_version ["ANSYSEM_ROOT211".toList]
          = version_key_of_env_var "ANSYSEM_ROOT211".toList) :=
  ⟨⟨by decide, C1_version_key_derivation.1 21 (by decide) 1 (by decide) (by decide)⟩,
    ⟨by decide,
      C1_version_key_derivation.2 "ANSYSEM_ROOT211".toList [] ["2021.1".toList] (by decide)⟩⟩

open PyStr Desktop in
/-- C2 counterexample: the key derivation of `version_keys` sends
`ANSYSEM_ROOT193` to `"2019.1"`, but `get_version_env_variable "2019.1"`
returns `ANSYSEM_ROOT201`, not the original name.  The round trip claimed by
C2 therefore fails on `ANSYSEM_ROOT193` (`VV = 19 < 20`, `R = 3`). -/
theorem C2_roundtrip_counterexample :
    (version_key_of_env_var "ANSYSEM_ROOT193".toList).bind get_version_env_variable
        = some "ANSYSEM_ROOT201".toList
    ∧ some "ANSYSEM_ROOT201".toList ≠ some "ANSYSEM_ROOT193".toList := by
  decide

open PyStr Desktop in
/-- C2 (amended): `get_version_env_variable` inverts the key derivation of
`Desktop.version_keys` for every name `ANSYSEM_ROOT<VV><R>` with `VV ≥ 20`,
or with `VV < 20` and `R < 3`, or with `VV < 20` and `R ≥ 5`; it does not
invert it when `VV < 20` and `R ∈ {3, 4}` (see the counterexample). -/
theorem C2_roundtrip_amended :
    ∀ vv < 100, ∀ r < 10,
      (10 ≤ vv ∧ (20 ≤ vv ∨ r < 3 ∨ 5 ≤ r)) →
      (version_key_of_env_var (ansysemRoot ++ toDecimal vv ++ toDecimal r)).bind
          get_version_env_variable
        = some (ansysemRoot ++ toDecimal vv ++ toDecimal r) := by
  decide

open PyStr Desktop in
/-- Witness for the amended C2 at `ANSYSEM_ROOT211`. -/
theorem C2_roundtrip_amended_witness :
    (21 < 100 ∧ 1 < 10 ∧ 10 ≤ 21 ∧ (20 ≤ 21 ∨ 1 < 3 ∨ 5 ≤ 1)) ∧
      (version_key_of_env_var (ansysemRoot ++ toDecimal 21 ++ toDecimal 1)).bind
          get_version_env_variable
        = some (ansysemRoot ++ toDecimal 21 ++ toDecimal 1) :=
  ⟨by decide,
    C2_roundtrip_amended 21 (by decide) 1 (by decide) ⟨by decide, by decide⟩⟩

open Desktop in
/-- C3 counterexample: under the `pythonnet_v3` backend with
`close_desktop=True` (trace shown here for `close_projects=True`, an empty
project list, scope bound 5, process id 1, successful kill and delete), the
release loop of `release_desktop` passes scope index 0 on all six iterations:
index 0 is released six times and index 1 (like every other index `1..5`) is
never released, contradicting "each scope index from 0 up to the scope bound
inclusive exactly once". -/
theorem C3_release_counterexample :
    List.count (Event.release 0)
        (release_desktop .pythonnet_v3 true true [] 0 1 true true).2 = 6
    ∧ List.count (Event.release 1)
        (release_desktop .pythonnet_v3 true true [] 0 1 true true).2 = 0 := by
  decide

open Desktop in
/-- C3 (amended): `release_desktop` with `close_projects=True` first closes
every project in the desktop's project list; then, under `pythonnet`, it
releases each COM scope index from 0 to `ScopeID` inclusive exactly once (in
order) before the desktop handle is deleted; under `pythonnet_v3` with
`close_desktop=False` it releases each index from 0 to 5 inclusive exactly
once before the handle is deleted; under `pythonnet_v3` with
`close_desktop=True` it instead performs six release calls that all pass
scope index 0, before the AEDT process is killed and the handle is deleted. -/
theorem C3_release_desktop_amended (cp : Bool) (projects : List String)
    (scopeID : Nat) (pid : Int) (killOk delOk : Bool) :
    ((release_desktop .pythonnet cp true projects scopeID pid killOk delOk)
        = (none, (if cp then projects.map Event.closeProject else [])
            ++ (List.range (scopeID + 1)).map Event.release
            ++ (if delOk then [Event.delDesktop] else [])))
    ∧ ((release_desktop .pythonnet_v3 cp false projects scopeID pid killOk delOk)
        = (none, (if cp then projects.map Event.closeProject else [])
            ++ (List.range 6).map Event.release
            ++ (if delOk then [Event.delDesktop] else []) ++ [Event.delInitFlag]))
    ∧ ((release_desktop .pythonnet_v3 cp true projects scopeID pid killOk delOk)
        = (some (killOk && delOk),
            (if cp then projects.map Event.closeProject else [])
            ++ List.replicate 6 (Event.release 0)
            ++ (if killOk then
                  Event.kill pid :: (if delOk then [Event.delDesktop] else [])
                else [])))
    ∧ (∀ j ≤ scopeID,
        List.count (Event.release j) ((List.range (scopeID + 1)).map Event.release) = 1) := by
  have hrange : ∀ b : Nat, releaseLoop (fun i => i) (b + 2) 0 b
      = (List.range (b + 1)).map Event.release := by
    intro b
    rw [releaseLoop_eq_range' (fun i => i) (b + 2) 0 b (by omega)]
    simp [List.range_eq_range']
  refine ⟨?_, ?_, ?_, ?_⟩
  · rw [release_desktop]
    rw [hrange scopeID]
  · rw [release_desktop]
    simp only [Bool.false_eq_true, if_false]
    rw [show releaseLoop (fun i => i) 7 0 5 = (List.range 6).map Event.release from rfl]
  · rw [release_desktop]
    simp only [if_true]
    rw [show releaseLoop (fun _ => 0) 7 0 5 = List.replicate 6 (Event.release 0) from rfl]
    cases killOk <;> cases delOk <;> simp
  · intro j hj
    rw [List.count_map_of_injective _ Event.release
        (fun a b hab => by cases hab; rfl)]
    exact List.count_eq_one_of_mem (List.nodup_range _) (List.mem_range.mpr (by omega))

open Desktop in
/-- Witness for the amended C3 at a concrete call (projects `["P"]`, scope
bound 1, pid 7, all external operations succeeding), discharging the `j ≤
scopeID` hypothesis of the count conjunct at `j = 1`. -/
theorem C3_release_desktop_amended_witness :
    ((release_desktop .pythonnet true true ["P"] 1 7 true true)
        = (none, (if true then ["P"].map Event.closeProject else [])
            ++ (List.range 2).map Event.release
            ++ (if true then [Event.delDesktop] else [])))
    ∧ (1 ≤ 1 ∧
        List.count (Event.release 1) ((List.range 2).map Event.release) = 1) :=
  ⟨(C3_release_desktop_amended true ["P"] 1 7 true true).1,
    ⟨Nat.le_refl 1, (C3_release_desktop_amended true ["P"] 1 7 true true).2.2.2 1 (Nat.le_refl 1)⟩⟩

open Desktop in
/-- C10: `force_close_desktop` never releases any COM object scope (the loop
guard tests the unbound counter `i`, so the `NameError` is swallowed and the
body never runs); it still closes the open projects, kills the AEDT process
by its pid, and returns `True` exactly when both the kill and the deletion of
the desktop handle succeed. -/
theorem C10_force_close_no_release (pid : Int) (projects : Option (List String))
    (killOk delOk : Bool) (hpid : 0 < pid) :
    (∀ j, Event.release j ∉ (force_close_desktop pid projects killOk delOk).2)
    ∧ (∀ ps, projects = some ps →
        ∀ p ∈ ps, Event.closeProject p ∈ (force_close_desktop pid projects killOk delOk).2)
    ∧ (killOk = true → Event.kill pid ∈ (force_close_desktop pid projects killOk delOk).2)
    ∧ ((force_close_desktop pid projects killOk delOk).1 = some true
        ↔ (killOk = true ∧ delOk = true)) := by
  rw [force_close_desktop.eq_def, if_pos hpid]
  refine ⟨?_, ?_, ?_, ?_⟩
  · intro j hj
    rcases projects with _ | ps <;> cases killOk <;> cases delOk <;>
      simp [List.mem_append, List.mem_map] at hj
  · rintro ps rfl p hp
    cases killOk <;> cases delOk <;>
      simp [List.mem_append, List.mem_map] <;> exact hp
  · intro hk
    subst hk
    rcases projects with _ | ps <;> cases delOk <;> simp
  · cases killOk <;> cases delOk <;> simp

open Desktop in
/-- Witness for C10 at pid 1, one open project, kill and delete succeeding. -/
theorem C10_force_close_no_release_witness :
    (0 : Int) < 1 ∧
      ((∀ j, Event.release j ∉ (force_close_desktop 1 (some ["P"]) true true).2)
      ∧ (∀ ps, some ["P"] = some ps →
          ∀ p ∈ ps, Event.closeProject p ∈ (force_close_desktop 1 (some ["P"]) true true).2)
      ∧ (true = true → Event.kill 1 ∈ (force_close_desktop 1 (some ["P"]) true true).2)
      ∧ ((force_close_desktop 1 (some ["P"]) true true).1 = some true
          ↔ (true = true ∧ true = true))) :=
  ⟨by decide, C10_force_close_no_release 1 (some ["P"]) true true (by decide)⟩

namespace Components

/-- The fields of an EDB component wrapper that the modelled methods read.
The wrapper class `EDBComponent` itself lives in `edb_core/EDB_Data.py`,
outside the modelled sources; a component is modelled as the record of the
accessors `components.py` uses: the reference designator `RefDes`, the
`type` string, the pin count `numpins`, and the part name. -/
structure CmpInfo where
  refDes : String
  ctype : String
  numpins : Nat
  partname : String
deriving DecidableEq

/-- Python-dict model: insertion-ordered association list; assignment
`d[k] = v` updates an existing key in place or appends a fresh entry. -/
def dinsert (k : String) (v : CmpInfo) :
    List (String × CmpInfo) → List (String × CmpInfo)
  | [] => [(k, v)]
  | (k', v') :: rest => if k' = k then (k, v) :: rest else (k', v') :: dinsert k v rest

/-- Python `del d[k]`. -/
def derase (k : String) (d : List (String × CmpInfo)) : List (String × CmpInfo) :=
  d.filter (fun kv => kv.1 != k)

/-- The component cache `self._cmp` of the `Components` object. -/
structure CompsState where
  cmp : List (String × CmpInfo)
deriving DecidableEq

/-- `refresh_components` (`components.py`, lines 152–160): query
`get_component_list` and rebuild `_cmp` keyed by `cmp.RefDes`.  The external
query is modelled by `ext`; `none` models a raised exception, swallowed by
the `except: pass` before `_cmp` is reassigned. -/
def refresh_components (ext : Option (List CmpInfo)) (st : CompsState) : CompsState :=
  match ext with
  | none => st
  | some cmplist => ⟨cmplist.foldl (fun d cmp => dinsert cmp.refDes cmp d) []⟩

/-- The `Components.components` property (`components.py`, lines 128–150):
refresh only when the cache is empty, then return the cache.  The result is
the returned dictionary, the new state, and whether the external object model
was queried. -/
def components (ext : Option (List CmpInfo)) (st : CompsState) :
    List (String × CmpInfo) × CompsState × Bool :=
  if st.cmp.isEmpty then
    let st' := refresh_components ext st
    (st'.cmp, st', true)
  else (st.cmp, st, false)

/-- Loop shared by the classification properties (`resistors`, `capacitors`,
`inductors`, `ICs`, `IOs`, `Others`): rebuild the view dictionary from
scratch, inserting every cache entry whose `type` equals `t`. -/
def typeFilterLoop (t : String) (items : List (String × CmpInfo)) :
    List (String × CmpInfo) :=
  items.foldl (fun acc kv => if kv.2.ctype = t then dinsert kv.1 kv.2 acc else acc) []

/-- `Components.resistors` (lines 162–184). -/
def resistors (ext : Option (List CmpInfo)) (st : CompsState) :
    List (String × CmpInfo) × CompsState :=
  let r := components ext st
  (typeFilterLoop "Resistor" r.1, r.2.1)

/-- `Components.capacitors` (lines 186–207). -/
def capacitors (ext : Option (List CmpInfo)) (st : CompsState) :
    List (String × CmpInfo) × CompsState :=
  let r := components ext st
  (typeFilterLoop "Capacitor" r.1, r.2.1)

/-- `Components.inductors` (lines 209–231). -/
def inductors (ext : Option (List CmpInfo)) (st : CompsState) :
    List (String × CmpInfo) × CompsState :=
  let r := components ext st
  (typeFilterLoop "Inductor" r.1, r.2.1)

/-- `Components.ICs` (lines 234–254). -/
def ICs (ext : Option (List CmpInfo)) (st : CompsState) :
    List (String × CmpInfo) × CompsState :=
  let r := components ext st
  (typeFilterLoop "IC" r.1, r.2.1)

/-- `Components.IOs` (lines 257–277). -/
def IOs (ext : Option (List CmpInfo)) (st : CompsState) :
    List (String × CmpInfo) × CompsState :=
  let r := components ext st
  (typeFilterLoop "IO" r.1, r.2.1)

/-- `Components.Others` (lines 280–303). -/
def Others (ext : Option (List CmpInfo)) (st : CompsState) :
    List (String × CmpInfo) × CompsState :=
  let r := components ext st
  (typeFilterLoop "Other" r.1, r.2.1)

/-- `val.type == "Resistor" or val.type == "Capacitor" or val.type ==
"Inductor"` (line 581). -/
def rlcKindB (t : String) : Bool :=
  t == "Resistor" || t == "Capacitor" || t == "Inductor"

/-- The accumulation loop of `delete_single_pin_rlc` (lines 579–586).
`inLayout comp` models `get_component_by_name(comp) is not None`; when it
holds the component is deleted from the layout and its reference designator
recorded. -/
def dsprLoop (inLayout : String → Bool) : List (String × CmpInfo) → List String
  | [] => []
  | (comp, val) :: rest =>
    if decide (val.numpins < 2) && rlcKindB val.ctype then
      if inLayout comp then comp :: dsprLoop inLayout rest
      else dsprLoop inLayout rest
    else dsprLoop inLayout rest

/-- `Components.delete_single_pin_rlc` (lines 561–589): collect and delete
the single-pin RLC components found in the layout, then remove them from the
cached dictionary; returns the deleted reference designators and the new
state. -/
def delete_single_pin_rlc (inLayout : String → Bool) (ext : Option (List CmpInfo))
    (st : CompsState) : List String × CompsState :=
  let r := components ext st
  let deleted := dsprLoop inLayout r.1
  (deleted, ⟨deleted.foldl (fun d el => derase el d) r.2.1.cmp⟩)

/-- Inserting a fresh key appends the entry. -/
theorem dinsert_of_not_mem (k : String) (v : CmpInfo) :
    ∀ acc : List (String × CmpInfo), k ∉ acc.map Prod.fst →
      dinsert k v acc = acc ++ [(k, v)] := by
  intro acc
  induction acc with
  | nil => intro _; rfl
  | cons kv rest ih =>
    intro h
    rw [List.map_cons, List.mem_cons, not_or] at h
    rw [dinsert, if_neg (fun he => h.1 he.symm), ih h.2, List.cons_append]

/-- Membership in an inserted dictionary. -/
theorem mem_dinsert {k : String} {v : CmpInfo} :
    ∀ {d kv}, kv ∈ dinsert k v d → kv = (k, v) ∨ kv ∈ d := by
  intro d
  induction d with
  | nil =>
    intro kv h
    simp [dinsert] at h
    exact Or.inl h
  | cons kv' rest ih =>
    intro kv h
    rw [dinsert] at h
    by_cases hk : kv'.1 = k
    · rw [if_pos hk, List.mem_cons] at h
      rcases h with h | h
      · exact Or.inl h
      · exact Or.inr (List.mem_cons_of_mem _ h)
    · rw [if_neg hk, List.mem_cons] at h
      rcases h with h | h
      · exact Or.inr (h ▸ List.mem_cons_self _ _)
      · rcases ih h with h | h
        · exact Or.inl h
        · exact Or.inr (List.mem_cons_of_mem _ h)

/-- Every entry of a refreshed cache is keyed by its component's `RefDes`. -/
theorem refresh_keyed (cmplist : List CmpInfo) :
    ∀ acc : List (String × CmpInfo), (∀ kv ∈ acc, kv.1 = kv.2.refDes) →
      ∀ kv ∈ cmplist.foldl (fun d cmp => dinsert cmp.refDes cmp d) acc,
        kv.1 = kv.2.refDes := by
  induction cmplist with
  | nil => intro acc h kv hkv; exact h kv hkv
  | cons c rest ih =>
    intro acc h kv hkv
    rw [List.foldl_cons] at hkv
    refine ih (dinsert c.refDes c acc) ?_ kv hkv
    intro kv' hkv'
    rcases mem_dinsert hkv' with h' | h'
    · rw [h']
    · exact h kv' h'

/-- In a dictionary with nodup keys, an entry is determined by its key. -/
theorem eq_of_mem_keyEq :
    ∀ {l : List (String × CmpInfo)}, (l.map Prod.fst).Nodup →
      ∀ {kv kv' : String × CmpInfo}, kv ∈ l → kv' ∈ l → kv.1 = kv'.1 → kv = kv' := by
  intro l
  induction l with
  | nil => intro _ kv kv' h; cases h
  | cons a rest ih =>
    intro hnd kv kv' h1 h2 hk
    rw [List.map_cons, List.nodup_cons] at hnd
    rcases List.mem_cons.mp h1 with h1 | h1 <;> rcases List.mem_cons.mp h2 with h2 | h2
    · rw [h1, h2]
    · exfalso
      apply hnd.1
      rw [h1] at hk
      rw [hk]
      exact List.mem_map_of_mem Prod.fst h2
    · exfalso
      apply hnd.1
      rw [h2] at hk
      rw [← hk]
      exact List.mem_map_of_mem Prod.fst h1
    · exact ih hnd.2 h1 h2 hk

/-- The classification loop is the type filter of the cache (for a cache
with no duplicate keys). -/
theorem typeFilterLoop_eq_filter (t : String) :
    ∀ (l : List (String × CmpInfo)) (acc : List (String × CmpInfo)),
      (l.map Prod.fst).Nodup → (∀ kv ∈ l, kv.1 ∉ acc.map Prod.fst) →
      l.foldl (fun acc kv => if kv.2.ctype = t then dinsert kv.1 kv.2 acc else acc) acc
        = acc ++ l.filter (fun kv => kv.2.ctype == t) := by
  intro l
  induction l with
  | nil => intro acc _ _; simp
  | cons kv rest ih =>
    intro acc hnd hfresh
    rw [List.map_cons, List.nodup_cons] at hnd
    rw [List.foldl_cons]
    by_cases ht : kv.2.ctype = t
    · rw [if_pos ht, dinsert_of_not_mem _ _ acc (hfresh kv (List.mem_cons_self _ _))]
      rw [ih (acc ++ [(kv.1, kv.2)]) hnd.2 ?fresh]
      · rw [List.filter_cons_of_pos (by simpa using ht), List.append_assoc]
        rfl
      case fresh =>
        intro kv' hkv'
        rw [List.map_append, List.mem_append, not_or]
        refine ⟨hfresh kv' (List.mem_cons_of_mem _ hkv'), ?_⟩
        intro hmem
        simp only [List.map_cons, List.map_nil, List.mem_singleton] at hmem
        exact hnd.1 (hmem ▸ List.mem_map_of_mem Prod.fst hkv')
    · rw [if_neg ht, ih acc hnd.2 (fun kv' h => hfresh kv' (List.mem_cons_of_mem _ h)),
        List.filter_cons_of_neg (by simpa using ht)]

/-- Folding `del d[k]` over a key list removes exactly the entries with a
listed key. -/
theorem eraseFold_eq_filter :
    ∀ (D : List String) (d : List (String × CmpInfo)),
      D.foldl (fun d el => derase el d) d = d.filter (fun kv => !(D.contains kv.1)) := by
  intro D
  induction D with
  | nil => intro d; simp
  | cons k D ih =>
    intro d
    rw [List.foldl_cons, ih, derase, List.filter_filter]
    refine List.filter_congr ?_
    intro kv _
    simp only [List.contains_cons, Bool.not_or]
    rw [Bool.and_comm]
    rfl

/-- The deletion loop returns the keys of the single-pin RLC entries that
resolve in the layout, in cache order. -/
theorem dsprLoop_eq_filter (inLayout : String → Bool) :
    ∀ l : List (String × CmpInfo),
      dsprLoop inLayout l
        = (l.filter (fun kv =>
            decide (kv.2.numpins < 2) && rlcKindB kv.2.ctype && inLayout kv.1)).map Prod.fst := by
  intro l
  induction l with
  | nil => rfl
  | cons kv rest ih =>
    obtain ⟨comp, val⟩ := kv
    rw [dsprLoop]
    by_cases h1 : (decide (val.numpins < 2) && rlcKindB val.ctype) = true
    · by_cases h2 : inLayout comp = true
      · rw [if_pos h1, if_pos h2, List.filter_cons_of_pos (by
          show (decide (val.numpins < 2) && rlcKindB val.ctype && inLayout comp) = true
          rw [h1, h2]
          rfl), List.map_cons, ih]
      · have h2' : inLayout comp = false := by simpa using h2
        rw [if_pos h1, if_neg h2, List.filter_cons_of_neg (by simp [h2']), ih]
    · have h1' : (decide (val.numpins < 2) && rlcKindB val.ctype) = false := by
        simpa using h1
      rw [if_neg h1, List.filter_cons_of_neg (by simp [h1']), ih]

end Components

namespace Components

/-- A one-entry component cache used by the concrete witnesses below. -/
def sampleState : CompsState := ⟨[("R1", ⟨"R1", "Resistor", 1, "px"⟩)]⟩

end Components

open Components in
/-- C4: the component cache is filled on demand and then stable: a read of
`Components.components` queries the external object model exactly when the
cached dictionary is empty; a read on a non-empty cache returns that cache
unchanged without querying; a second read after any read that produced a
non-empty cache returns the same dictionary without querying; and every
returned entry is keyed by its component's `RefDes` (given that the current
cache is, which holds for every cache the class ever builds). -/
theorem C4_components_cache_on_demand (ext : Option (List CmpInfo)) (st : CompsState) :
    ((components ext st).2.2 = true ↔ st.cmp = [])
    ∧ (st.cmp ≠ [] → components ext st = (st.cmp, st, false))
    ∧ ((components ext st).2.1.cmp ≠ [] →
        components ext (components ext st).2.1
          = ((components ext st).1, (components ext st).2.1, false))
    ∧ ((∀ kv ∈ st.cmp, kv.1 = kv.2.refDes) →
        ∀ kv ∈ (components ext st).1, kv.1 = kv.2.refDes) := by
  by_cases hemp : st.cmp.isEmpty = true
  · have hnil : st.cmp = [] := List.isEmpty_iff.mp hemp
    have hc : components ext st
        = ((refresh_components ext st).cmp, refresh_components ext st, true) := by
      rw [components, if_pos hemp]
    refine ⟨by rw [hc]; simpa using hnil, fun hne => absurd hnil hne, ?_, ?_⟩
    · rw [hc]
      intro hne
      rw [components, if_neg (by simpa using hne)]
    · intro hkeyed kv hkv
      rw [hc] at hkv
      cases ext with
      | none => exact hkeyed kv hkv
      | some cmplist =>
        exact refresh_keyed cmplist [] (by simp) kv hkv
  · have hne : ¬ st.cmp = [] := fun h => hemp (by simp [h])
    have hc : components ext st = (st.cmp, st, false) := by
      rw [components, if_neg hemp]
    refine ⟨by rw [hc]; simpa using hne, fun _ => hc, ?_, ?_⟩
    · rw [hc]
      intro hne'
      rw [components, if_neg (by simpa using hne')]
    · intro hkeyed kv hkv
      rw [hc] at hkv
      exact hkeyed kv hkv

open Components in
/-- Witness for C4 at a one-entry cache: the read does not query, returns the
cache unchanged, a second read is stable, and the keying invariant holds. -/
theorem C4_components_cache_on_demand_witness :
    (sampleState.cmp ≠ [] ∧ components none sampleState = (sampleState.cmp, sampleState, false))
    ∧ ((components none sampleState).2.1.cmp ≠ [] ∧
        components none (components none sampleState).2.1
          = ((components none sampleState).1, (components none sampleState).2.1, false))
    ∧ ((∀ kv ∈ sampleState.cmp, kv.1 = kv.2.refDes) ∧
        ∀ kv ∈ (components none sampleState).1, kv.1 = kv.2.refDes) :=
  ⟨⟨by decide, (C4_components_cache_on_demand none sampleState).2.1 (by decide)⟩,
    ⟨by decide, (C4_components_cache_on_demand none sampleState).2.2.1 (by decide)⟩,
    ⟨by decide, (C4_components_cache_on_demand none sampleState).2.2.2 (by decide)⟩⟩

open Components in
/-- C7 counterexample: with a cached single-pin resistor `R1` that
`get_component_by_name` does not resolve in the layout (it returns `None`),
`delete_single_pin_rlc` returns the empty list and leaves the cache entry in
place, whereas the claim demands that `R1` be deleted and returned. -/
theorem C7_delete_single_pin_counterexample :
    (delete_single_pin_rlc (fun _ => false) none sampleState).1 = []
    ∧ ("R1", (⟨"R1", "Resistor", 1, "px"⟩ : CmpInfo))
        ∈ (delete_single_pin_rlc (fun _ => false) none sampleState).2.cmp
    ∧ ([] : List String) ≠ ["R1"] := by
  decide

open Components in
/-- C7 (amended): on a non-empty cache with distinct keys,
`delete_single_pin_rlc` returns exactly the reference designators of the
cached components whose type is Resistor, Capacitor, or Inductor, whose pin
count is less than 2, and which `get_component_by_name` resolves in the
layout (modelled by `inLayout`), in cache order; exactly those entries are
removed from the cached dictionary and every other entry is kept. -/
theorem C7_delete_single_pin_rlc_amended (inLayout : String → Bool)
    (ext : Option (List CmpInfo)) (st : CompsState)
    (hne : st.cmp ≠ []) (hnd : (st.cmp.map Prod.fst).Nodup) :
    (delete_single_pin_rlc inLayout ext st).1
        = (st.cmp.filter (fun kv =>
            decide (kv.2.numpins < 2) && rlcKindB kv.2.ctype && inLayout kv.1)).map Prod.fst
    ∧ (delete_single_pin_rlc inLayout ext st).2.cmp
        = st.cmp.filter (fun kv =>
            !(decide (kv.2.numpins < 2) && rlcKindB kv.2.ctype && inLayout kv.1)) := by
  have hc : components ext st = (st.cmp, st, false) := by
    rw [components, if_neg (by simpa using hne)]
  have hd : delete_single_pin_rlc inLayout ext st
      = (dsprLoop inLayout st.cmp,
          ⟨(dsprLoop inLayout st.cmp).foldl (fun d el => derase el d) st.cmp⟩) := by
    rw [delete_single_pin_rlc, hc]
  rw [hd, dsprLoop_eq_filter]
  refine ⟨rfl, ?_⟩
  rw [eraseFold_eq_filter]
  refine List.filter_congr ?_
  intro kv hkv
  have hcp : ((st.cmp.filter (fun kv =>
      decide (kv.2.numpins < 2) && rlcKindB kv.2.ctype && inLayout kv.1)).map
        Prod.fst).contains kv.1
      = (decide (kv.2.numpins < 2) && rlcKindB kv.2.ctype && inLayout kv.1) := by
    by_cases hp : (decide (kv.2.numpins < 2) && rlcKindB kv.2.ctype && inLayout kv.1) = true
    · rw [hp]
      exact List.elem_iff.mpr
        (List.mem_map_of_mem Prod.fst (List.mem_filter.mpr ⟨hkv, hp⟩))
    · have hp' : (decide (kv.2.numpins < 2) && rlcKindB kv.2.ctype && inLayout kv.1)
          = false := by simpa using hp
      rw [hp']
      rw [← Bool.not_eq_true]
      intro hcontains
      obtain ⟨kv', hkv'f, hkey⟩ := List.mem_map.mp (List.elem_iff.mp hcontains)
      obtain ⟨hkv'mem, hkv'pred⟩ := List.mem_filter.mp hkv'f
      have hkveq : kv = kv' := eq_of_mem_keyEq hnd hkv hkv'mem hkey.symm
      rw [← hkveq] at hkv'pred
      rw [hkv'pred] at hp'
      exact Bool.true_eq_false.mp hp'
  rw [hcp]

open Components in
/-- Witness for the amended C7: on the one-entry cache holding the single-pin
resistor `R1`, with the layout resolving every name, `R1` is returned and its
entry removed. -/
theorem C7_delete_single_pin_rlc_amended_witness :
    (sampleState.cmp ≠ [] ∧ (sampleState.cmp.map Prod.fst).Nodup)
    ∧ ((delete_single_pin_rlc (fun _ => true) none sampleState).1
        = (sampleState.cmp.filter (fun kv =>
            decide (kv.2.numpins < 2) && rlcKindB kv.2.ctype
              && (fun _ => true) kv.1)).map Prod.fst
      ∧ (delete_single_pin_rlc (fun _ => true) none sampleState).2.cmp
        = sampleState.cmp.filter (fun kv =>
            !(decide (kv.2.numpins < 2) && rlcKindB kv.2.ctype
              && (fun _ => true) kv.1))) :=
  ⟨⟨by decide, by decide⟩,
    C7_delete_single_pin_rlc_amended (fun _ => true) none sampleState
      (by decide) (by decide)⟩

open Components in
/-- C8: on an unchanged (non-empty, duplicate-free) component cache, the six
classification properties are exactly the type filters of the cache under the
same reference-designator keys (shown both as dictionary equalities and as a
membership characterization), the cache is left unchanged, and recomputing
any view from the same cache yields the same dictionary. -/
theorem C8_classification_views (ext : Option (List CmpInfo)) (st : CompsState)
    (hne : st.cmp ≠ []) (hnd : (st.cmp.map Prod.fst).Nodup) :
    (resistors ext st = (st.cmp.filter (fun kv => kv.2.ctype == "Resistor"), st)
    ∧ capacitors ext st = (st.cmp.filter (fun kv => kv.2.ctype == "Capacitor"), st)
    ∧ inductors ext st = (st.cmp.filter (fun kv => kv.2.ctype == "Inductor"), st)
    ∧ ICs ext st = (st.cmp.filter (fun kv => kv.2.ctype == "IC"), st)
    ∧ IOs ext st = (st.cmp.filter (fun kv => kv.2.ctype == "IO"), st)
    ∧ Others ext st = (st.cmp.filter (fun kv => kv.2.ctype == "Other"), st))
    ∧ (∀ k v, (k, v) ∈ (resistors ext st).1 ↔ ((k, v) ∈ st.cmp ∧ v.ctype = "Resistor"))
    ∧ (resistors ext (resistors ext st).2 = resistors ext st
    ∧ capacitors ext (capacitors ext st).2 = capacitors ext st
    ∧ inductors ext (inductors ext st).2 = inductors ext st
    ∧ ICs ext (ICs ext st).2 = ICs ext st
    ∧ IOs ext (IOs ext st).2 = IOs ext st
    ∧ Others ext (Others ext st).2 = Others ext st) := by
  have hc : components ext st = (st.cmp, st, false) := by
    rw [components, if_neg (by simpa using hne)]
  have hview : ∀ t, typeFilterLoop t st.cmp = st.cmp.filter (fun kv => kv.2.ctype == t) :=
    fun t => typeFilterLoop_eq_filter t st.cmp [] hnd (by simp)
  have hres : resistors ext st = (st.cmp.filter (fun kv => kv.2.ctype == "Resistor"), st) := by
    rw [resistors, hc, hview]
  have hcap : capacitors ext st
      = (st.cmp.filter (fun kv => kv.2.ctype == "Capacitor"), st) := by
    rw [capacitors, hc, hview]
  have hind : inductors ext st
      = (st.cmp.filter (fun kv => kv.2.ctype == "Inductor"), st) := by
    rw [inductors, hc, hview]
  have hics : ICs ext st = (st.cmp.filter (fun kv => kv.2.ctype == "IC"), st) := by
    rw [ICs, hc, hview]
  have hios : IOs ext st = (st.cmp.filter (fun kv => kv.2.ctype == "IO"), st) := by
    rw [IOs, hc, hview]
  have hoth : Others ext st = (st.cmp.filter (fun kv => kv.2.ctype == "Other"), st) := by
    rw [Others, hc, hview]
  refine ⟨⟨hres, hcap, hind, hics, hios, hoth⟩, ?_, ?_, ?_, ?_, ?_, ?_, ?_⟩
  · intro k v
    rw [hres]
    simp [List.mem_filter]
  · rw [hres]; exact hres
  · rw [hcap]; exact hcap
  · rw [hind]; exact hind
  · rw [hics]; exact hics
  · rw [hios]; exact hios
  · rw [hoth]; exact hoth

open Components in
/-- Witness for C8 on the one-entry cache holding the resistor `R1`. -/
theorem C8_classification_views_witness :
    (sampleState.cmp ≠ [] ∧ (sampleState.cmp.map Prod.fst).Nodup)
    ∧ ((resistors none sampleState
          = (sampleState.cmp.filter (fun kv => kv.2.ctype == "Resistor"), sampleState)
      ∧ capacitors none sampleState
          = (sampleState.cmp.filter (fun kv => kv.2.ctype == "Capacitor"), sampleState)
      ∧ inductors none sampleState
          = (sampleState.cmp.filter (fun kv => kv.2.ctype == "Inductor"), sampleState)
      ∧ ICs none sampleState
          = (sampleState.cmp.filter (fun kv => kv.2.ctype == "IC"), sampleState)
      ∧ IOs none sampleState
          = (sampleState.cmp.filter (fun kv => kv.2.ctype == "IO"), sampleState)
      ∧ Others none sampleState
          = (sampleState.cmp.filter (fun kv => kv.2.ctype == "Other"), sampleState))
    ∧ (∀ k v, (k, v) ∈ (resistors none sampleState).1
        ↔ ((k, v) ∈ sampleState.cmp ∧ v.ctype = "Resistor"))
    ∧ (resistors none (resistors none sampleState).2 = resistors none sampleState
    ∧ capacitors none (capacitors none sampleState).2 = capacitors none sampleState
    ∧ inductors none (inductors none sampleState).2 = inductors none sampleState
    ∧ ICs none (ICs none sampleState).2 = ICs none sampleState
    ∧ IOs none (IOs none sampleState).2 = IOs none sampleState
    ∧ Others none (Others none sampleState).2 = Others none sampleState)) :=
  ⟨⟨by decide, by decide⟩,
    C8_classification_views none sampleState (by decide) (by decide)⟩

namespace PyStr

/-- Python whitespace for `str.strip`. -/
def isSpaceB (c : Char) : Bool :=
  c = ' ' || c = '\t' || c = '\n' || c = '\r' || c = '\x0b' || c = '\x0c'

/-- Python `s.strip()`. -/
def stripB (s : List Char) : List Char :=
  ((s.dropWhile isSpaceB).reverse.dropWhile isSpaceB).reverse

/-- Python substring test `pat in s`. -/
def containsSeq : List Char → List Char → Bool
  | [], pat => isPrefixB pat []
  | c :: cs, pat => isPrefixB pat (c :: cs) || containsSeq cs pat

/-- ASCII lowercasing, as `str.lower` acts on the ASCII strings modelled
here. -/
def lowerChar (c : Char) : Char :=
  if 'A' ≤ c && c ≤ 'Z' then Char.ofNat (c.toNat + 32) else c

/-- Python `s.lower()` on ASCII strings. -/
def lowerB (s : List Char) : List Char := s.map lowerChar

/-- Split a float literal at its first exponent character. -/
def splitAtExpChar : List Char → List Char × Option (List Char)
  | [] => ([], none)
  | c :: cs =>
    if c = 'e' || c = 'E' then ([], some cs)
    else
      let r := splitAtExpChar cs
      (c :: r.1, r.2)

/-- All characters are decimal digits. -/
def allDigitsB (s : List Char) : Bool := s.all isDigitB

/-- Value of a digit string (already validated by `allDigitsB`). -/
def digitsToNat (s : List Char) : Nat := s.foldl (fun a c => 10 * a + digVal c) 0

/-- Mantissa of a Python float literal: optional sign, then digits with at
most one decimal point and at least one digit, at exact rational precision. -/
def parseMantissa? (s : List Char) : Option ℚ :=
  let p : ℚ × List Char :=
    match s with
    | '-' :: r => (-1, r)
    | '+' :: r => (1, r)
    | _ => (1, s)
  match splitOnChar p.2 '.' with
  | [a] =>
    if !a.isEmpty && allDigitsB a then some (p.1 * digitsToNat a) else none
  | [a, b] =>
    if (!a.isEmpty || !b.isEmpty) && allDigitsB a && allDigitsB b then
      some (p.1 * ((digitsToNat a : ℚ) + (digitsToNat b : ℚ) / 10 ^ b.length))
    else none
  | _ => none

/-- Exponent part of a float literal. -/
def parseExp? (s : List Char) : Option Int := charsToInt? s

/-- Apply a decimal exponent to a mantissa, exactly. -/
def applyExp (m : ℚ) (e : Int) : ℚ :=
  if 0 ≤ e then m * 10 ^ e.toNat else m / 10 ^ (-e).toNat

/-- Exact-rational model of Python `float()` on the decimal/scientific
literals handled by the modelled code.  `none` models `ValueError`;
floating-point rounding is deliberately not modelled, values are exact. -/
def floatOfChars? (s : List Char) : Option ℚ :=
  match splitAtExpChar s with
  | (m, none) => parseMantissa? m
  | (m, some e) =>
    match parseMantissa? m, parseExp? e with
    | some mv, some ev => some (applyExp mv ev)
    | _, _ => none

end PyStr

namespace Components

open PyStr

/-- The rewriting chain of `resistor_value_parser` (`components.py`, lines
38–45), in source order: spaces, then `meg`→`m`, then `Ohm`/`ohm` removal,
then `k`→`e3`, `m`→`e-3`, `M`→`e6`. -/
def resistor_value_rewrite (RValue : List Char) : List Char :=
  replace
    (replace
      (replace
        (replace
          (replace
            (replace
              (replace RValue " ".toList [])
              "meg".toList "m".toList)
            "Ohm".toList [])
          "ohm".toList [])
        "k".toList "e3".toList)
      "m".toList "e-3".toList)
    "M".toList "e6".toList

/-- `resistor_value_parser` (lines 27–47) on a string input, with the final
`float()` conversion modelled at exact precision. -/
def resistor_value_parserQ (RValue : List Char) : Option ℚ :=
  floatOfChars? (resistor_value_rewrite RValue)

/-- The rewriting pipeline in the order claim C6 states it: spaces and
`Ohm`/`ohm` removed first, then `meg`→`m`, `k`→`e3`, `m`→`e-3`, `M`→`e6`.
This follows the claim's words, for comparison with the source-order
`resistor_value_rewrite`. -/
def resistor_value_rewrite_claimed (RValue : List Char) : List Char :=
  replace
    (replace
      (replace
        (replace
          (replace
            (replace
              (replace RValue " ".toList [])
              "Ohm".toList [])
            "ohm".toList [])
          "meg".toList "m".toList)
        "k".toList "e3".toList)
      "m".toList "e-3".toList)
    "M".toList "e6".toList

/-- Unsigned decimal literals: every character is a digit or a decimal
point. -/
def decimalLitB (s : List Char) : Bool := s.all (fun c => c = '.' || isDigitB c)

/-- An RLC assignment requested through `set_component_rlc` by
`update_rlc_from_bom`: which value slot of which component receives the
first space-separated token of the BOM value field. -/
inductive RlcAction where
  | setRes (refdes value : List Char)
  | setCap (refdes value : List Char)
  | setInd (refdes value : List Char)
deriving DecidableEq

/-- The loop state of `update_rlc_from_bom`: the `found` flag, the three
column indices (Python `None` as `none`), and the assignments made so far. -/
structure BomState where
  found : Bool
  refdescolumn : Option Nat
  comptypecolumn : Option Nat
  valuecolumn : Option Nat
  actions : List RlcAction
deriving DecidableEq

/-- Body of the data-line branch (`components.py`, lines 769–778): read the
three cells, split off the first space-separated token of the refdes and
value cells, and dispatch on the component-type text.  `none` models an
uncaught `IndexError`/`TypeError` (missing cell or a column index that is
still `None`). -/
def bomProcessLine (content_line : List (List Char)) (refc : Nat)
    (comptypecolumn valuecolumn : Option Nat) : Option (List RlcAction) :=
  match content_line.get? refc with
  | none => none
  | some rcell =>
    let new_refdes := (splitOnChar rcell ' ').headD []
    match valuecolumn with
    | none => none
    | some vc =>
      match content_line.get? vc with
      | none => none
      | some vcell =>
        let new_value := (splitOnChar vcell ' ').headD []
        match comptypecolumn with
        | none => none
        | some tc =>
          match content_line.get? tc with
          | none => none
          | some tcell =>
            let lt := lowerB tcell
            if containsSeq lt "resistor".toList then
              some [RlcAction.setRes new_refdes new_value]
            else if containsSeq lt "capacitor".toList then
              some [RlcAction.setCap new_refdes new_value]
            else if containsSeq lt "inductor".toList then
              some [RlcAction.setInd new_refdes new_value]
            else some []

/-- The line loop of `update_rlc_from_bom` (lines 760–778).  Each line is
split on the delimiter and stripped; the three header tests update the
column indices; a line not containing the refdes header is processed as a
data line when the Python expression `refdescolumn` is truthy, i.e. when the
stored index is neither `None` nor `0`. -/
def update_rlc_from_bom_loop (delimiter : Char)
    (valuefield comptype refdes : List Char) :
    List (List Char) → BomState → Option BomState
  | [], st => some st
  | line :: rest, st =>
    let content_line := (splitOnChar line delimiter).map stripB
    let vcol := if content_line.contains valuefield then
        content_line.findIdx? (· == valuefield) else st.valuecolumn
    let tcol := if content_line.contains comptype then
        content_line.findIdx? (· == comptype) else st.comptypecolumn
    if content_line.contains refdes then
      update_rlc_from_bom_loop delimiter valuefield comptype refdes rest
        { st with
            valuecolumn := vcol
            comptypecolumn := tcol
            refdescolumn := content_line.findIdx? (· == refdes) }
    else
      match st.refdescolumn with
      | some (n + 1) =>
        match bomProcessLine content_line (n + 1) tcol vcol with
        | none => none
        | some acts =>
          update_rlc_from_bom_loop delimiter valuefield comptype refdes rest
            { found := true
              refdescolumn := st.refdescolumn
              comptypecolumn := tcol
              valuecolumn := vcol
              actions := st.actions ++ acts }
      | _ =>
        update_rlc_from_bom_loop delimiter valuefield comptype refdes rest
          { st with valuecolumn := vcol, comptypecolumn := tcol }

/-- `Components.update_rlc_from_bom` (lines 724–779) on the lines of the BOM
file: returns the `found` flag and the RLC assignments requested, or `none`
when the body raises. -/
def update_rlc_from_bom (lines : List (List Char)) (delimiter : Char)
    (valuefield comptype refdes : List Char) : Option (Bool × List RlcAction) :=
  (update_rlc_from_bom_loop delimiter valuefield comptype refdes lines
      ⟨false, none, none, none, []⟩).map (fun st => (st.found, st.actions))

end Components

open PyStr Components in
/-- C5: evaluation at the failing input.  First conjunct: a BOM file whose
header line has the refdes field header in the first delimited column (index
0), followed by a well-formed data line, yields `found = False` and no
assignment — the guard `elif refdescolumn:` is falsy at index 0 — although
the claim (and the method's own docstring) promise `True` regardless of the
column.  Second conjunct: the same file with the refdes header in column 1
is parsed, returns `True`, and assigns the first space-separated token of
the value field (`"10"` out of `"10 Ohm"`) as the resistance of `R1`. -/
theorem C5_update_rlc_from_bom_column0 :
    update_rlc_from_bom
        ["Pos / Place;Prod name;Func des\n".toList, "R1;resistor;10 Ohm\n".toList]
        ';' "Func des".toList "Prod name".toList "Pos / Place".toList
      = some (false, [])
    ∧ update_rlc_from_bom
        ["Prod name;Pos / Place;Func des\n".toList, "resistor;R1;10 Ohm\n".toList]
        ';' "Func des".toList "Prod name".toList "Pos / Place".toList
      = some (true, [RlcAction.setRes "R1".toList "10".toList]) := by
  decide

namespace PyStr

/-- A scan never rewrites inside a block free of the pattern's head
character: it passes the block through and continues behind it. -/
theorem replaceAux_append_notMem (p : Char) (ps rep : List Char) :
    ∀ (a b : List Char) (fuel : Nat), (∀ c ∈ a, c ≠ p) →
      a.length + b.length ≤ fuel →
      replaceAux (p :: ps) rep fuel (a ++ b)
        = a ++ replaceAux (p :: ps) rep (fuel - a.length) b := by
  intro a
  induction a with
  | nil =>
    intro b fuel _ _
    simp
  | cons c a' ih =>
    intro b fuel h hf
    cases fuel with
    | zero => simp [List.length_cons] at hf
    | succ f =>
      have hcp : c ≠ p := h c (List.mem_cons_self _ _)
      have hpre : isPrefixB (p :: ps) (c :: (a' ++ b)) = false := by
        rw [isPrefixB, decide_eq_false (fun he => hcp he.symm), Bool.false_and]
      rw [List.cons_append, replaceAux, if_neg (by simp [hpre])]
      rw [ih b f (fun x hx => h x (List.mem_cons_of_mem _ hx))
        (by simp [List.length_cons] at hf; omega)]
      rw [List.length_cons, Nat.succ_sub_succ, List.cons_append]

/-- `str.replace` on `a ++ b` when the pattern's head does not occur in `a`:
`a` passes through and the scan continues on `b` with exactly `b.length`
fuel. -/
theorem replace_append_notMem {pat : List Char} (p : Char) (ps : List Char)
    (hpat : pat = p :: ps) (rep a b : List Char) (h : ∀ c ∈ a, c ≠ p) :
    replace (a ++ b) pat rep = a ++ replaceAux pat rep b.length b := by
  subst hpat
  rw [replace, List.length_append,
    replaceAux_append_notMem p ps rep a b (a.length + b.length) h (Nat.le_refl _),
    Nat.add_sub_cancel_left]

/-- `str.replace` is the identity on a string free of the pattern's head
character. -/
theorem replace_self_of_notMem {pat : List Char} (p : Char) (ps : List Char)
    (hpat : pat = p :: ps) (rep s : List Char) (h : ∀ c ∈ s, c ≠ p) :
    replace s pat rep = s := by
  have h2 := replace_append_notMem p ps hpat rep s [] h
  rw [List.append_nil] at h2
  rw [h2, hpat]
  rw [show replaceAux (p :: ps) rep (List.length []) [] = [] from rfl, List.append_nil]

/-- Splitting at the exponent character passes a block free of `e`/`E`
through. -/
theorem splitAtExpChar_append (a b : List Char)
    (h : ∀ c ∈ a, (c = 'e' || c = 'E') = false) :
    splitAtExpChar (a ++ b) = (a ++ (splitAtExpChar b).1, (splitAtExpChar b).2) := by
  induction a with
  | nil => simp
  | cons c a' ih =>
    have hc := h c (List.mem_cons_self _ _)
    rw [List.cons_append, splitAtExpChar, if_neg (by simp [hc])]
    rw [ih (fun x hx => h x (List.mem_cons_of_mem _ hx))]
    rfl

/-- A string without exponent characters splits into itself. -/
theorem splitAtExpChar_of_noExp (a : List Char)
    (h : ∀ c ∈ a, (c = 'e' || c = 'E') = false) :
    splitAtExpChar a = (a, none) := by
  have h2 := splitAtExpChar_append a [] h
  simpa [splitAtExpChar] using h2

/-- Without an exponent character, `float()` is mantissa parsing. -/
theorem floatOfChars?_of_noExp (n : List Char)
    (h : ∀ c ∈ n, (c = 'e' || c = 'E') = false) :
    floatOfChars? n = parseMantissa? n := by
  simp [floatOfChars?, splitAtExpChar_of_noExp n h]

/-- `float()` on `n ++ "e…"` for an exponent-free parseable mantissa `n`. -/
theorem floatOfChars?_append_exp (n tail : List Char) (q : ℚ) (ev : Int)
    (h : ∀ c ∈ n, (c = 'e' || c = 'E') = false)
    (hq : floatOfChars? n = some q) (hev : parseExp? tail = some ev) :
    floatOfChars? (n ++ 'e' :: tail) = some (applyExp q ev) := by
  have hm : parseMantissa? n = some q := by
    rw [← floatOfChars?_of_noExp n h]
    exact hq
  have hs : splitAtExpChar (n ++ 'e' :: tail) = (n, some tail) := by
    rw [splitAtExpChar_append n ('e' :: tail) h,
      show splitAtExpChar ('e' :: tail) = ([], some tail) from rfl,
      List.append_nil]
  simp [floatOfChars?, hs, hm, hev]

end PyStr

namespace Components

open PyStr

/-- A decimal literal contains no occurrence of a character that is neither
a digit nor the decimal point. -/
theorem decimalLit_forall_ne (n : List Char) (hn : decimalLitB n = true)
    (p : Char) (hp : (p = '.' || isDigitB p) = false) :
    ∀ c ∈ n, c ≠ p := by
  intro c hc he
  subst he
  have h1 := List.all_eq_true.mp hn c hc
  rw [hp] at h1
  exact Bool.false_ne_true h1

/-- A decimal literal contains no exponent character. -/
theorem decimalLit_noExp (n : List Char) (hn : decimalLitB n = true) :
    ∀ c ∈ n, (c = 'e' || c = 'E') = false := by
  intro c hc
  have h1 := List.all_eq_true.mp hn c hc
  rcases Bool.or_eq_true_iff.mp h1 with h | h
  · have hc' : c = '.' := of_decide_eq_true h
    subst hc'
    decide
  · rw [isDigitB, Bool.and_eq_true] at h
    obtain ⟨_, hr⟩ := h
    have hr' : c ≤ '9' := of_decide_eq_true hr
    have hce : (c = 'e' : Bool) = false := by
      refine decide_eq_false (fun he => ?_)
      subst he
      exact absurd hr' (by decide)
    have hcE : (c = 'E' : Bool) = false := by
      refine decide_eq_false (fun he => ?_)
      subst he
      exact absurd hr' (by decide)
    rw [hce, hcE]
    rfl

/-- One `str.replace` step on `n ++ b` for a decimal literal `n` and a
pattern whose head is neither a digit nor the point: `n` passes through and
the scan of the concrete suffix `b` evaluates to `b'`. -/
theorem replace_digits_append_eval (pat : List Char) (p : Char) (ps : List Char)
    (hpat : pat = p :: ps) (hp : (p = '.' || isDigitB p) = false)
    (rep : List Char) (n b b' : List Char) (hn : decimalLitB n = true)
    (hb : replaceAux pat rep b.length b = b') :
    replace (n ++ b) pat rep = n ++ b' := by
  rw [replace_append_notMem p ps hpat rep n b (decimalLit_forall_ne n hn p hp), hb]

/-- The rewriting chain sends `n ++ "k"` to `n ++ "e3"` for a decimal
literal `n`. -/
theorem resistor_value_rewrite_k (n : List Char) (hn : decimalLitB n = true) :
    resistor_value_rewrite (n ++ "k".toList) = n ++ ['e', '3'] := by
  rw [resistor_value_rewrite,
    replace_digits_append_eval " ".toList ' ' [] rfl (by decide) [] n "k".toList ['k'] hn rfl,
    replace_digits_append_eval "meg".toList 'm' "eg".toList rfl (by decide) "m".toList n ['k'] ['k'] hn rfl,
    replace_digits_append_eval "Ohm".toList 'O' "hm".toList rfl (by decide) [] n ['k'] ['k'] hn rfl,
    replace_digits_append_eval "ohm".toList 'o' "hm".toList rfl (by decide) [] n ['k'] ['k'] hn rfl,
    replace_digits_append_eval "k".toList 'k' [] rfl (by decide) "e3".toList n ['k'] ['e', '3'] hn rfl,
    replace_digits_append_eval "m".toList 'm' [] rfl (by decide) "e-3".toList n ['e', '3'] ['e', '3'] hn rfl,
    replace_digits_append_eval "M".toList 'M' [] rfl (by decide) "e6".toList n ['e', '3'] ['e', '3'] hn rfl]

/-- The rewriting chain sends `n ++ "M"` to `n ++ "e6"`. -/
theorem resistor_value_rewrite_M (n : List Char) (hn : decimalLitB n = true) :
    resistor_value_rewrite (n ++ "M".toList) = n ++ ['e', '6'] := by
  rw [resistor_value_rewrite,
    replace_digits_append_eval " ".toList ' ' [] rfl (by decide) [] n "M".toList ['M'] hn rfl,
    replace_digits_append_eval "meg".toList 'm' "eg".toList rfl (by decide) "m".toList n ['M'] ['M'] hn rfl,
    replace_digits_append_eval "Ohm".toList 'O' "hm".toList rfl (by decide) [] n ['M'] ['M'] hn rfl,
    replace_digits_append_eval "ohm".toList 'o' "hm".toList rfl (by decide) [] n ['M'] ['M'] hn rfl,
    replace_digits_append_eval "k".toList 'k' [] rfl (by decide) "e3".toList n ['M'] ['M'] hn rfl,
    replace_digits_append_eval "m".toList 'm' [] rfl (by decide) "e-3".toList n ['M'] ['M'] hn rfl,
    replace_digits_append_eval "M".toList 'M' [] rfl (by decide) "e6".toList n ['M'] ['e', '6'] hn rfl]

/-- The rewriting chain sends `n ++ "m"` to `n ++ "e-3"`. -/
theorem resistor_value_rewrite_m (n : List Char) (hn : decimalLitB n = true) :
    resistor_value_rewrite (n ++ "m".toList) = n ++ ['e', '-', '3'] := by
  rw [resistor_value_rewrite,
    replace_digits_append_eval " ".toList ' ' [] rfl (by decide) [] n "m".toList ['m'] hn rfl,
    replace_digits_append_eval "meg".toList 'm' "eg".toList rfl (by decide) "m".toList n ['m'] ['m'] hn rfl,
    replace_digits_append_eval "Ohm".toList 'O' "hm".toList rfl (by decide) [] n ['m'] ['m'] hn rfl,
    replace_digits_append_eval "ohm".toList 'o' "hm".toList rfl (by decide) [] n ['m'] ['m'] hn rfl,
    replace_digits_append_eval "k".toList 'k' [] rfl (by decide) "e3".toList n ['m'] ['m'] hn rfl,
    replace_digits_append_eval "m".toList 'm' [] rfl (by decide) "e-3".toList n ['m'] ['e', '-', '3'] hn rfl,
    replace_digits_append_eval "M".toList 'M' [] rfl (by decide) "e6".toList n ['e', '-', '3'] ['e', '-', '3'] hn rfl]

/-- The rewriting chain sends `n ++ "meg"` to `n ++ "e-3"` as well: the
`meg` suffix is rewritten to `m` first and then parsed as milli, not mega. -/
theorem resistor_value_rewrite_meg (n : List Char) (hn : decimalLitB n = true) :
    resistor_value_rewrite (n ++ "meg".toList) = n ++ ['e', '-', '3'] := by
  rw [resistor_value_rewrite,
    replace_digits_append_eval " ".toList ' ' [] rfl (by decide) [] n "meg".toList ['m', 'e', 'g'] hn rfl,
    replace_digits_append_eval "meg".toList 'm' "eg".toList rfl (by decide) "m".toList n ['m', 'e', 'g'] ['m'] hn rfl,
    replace_digits_append_eval "Ohm".toList 'O' "hm".toList rfl (by decide) [] n ['m'] ['m'] hn rfl,
    replace_digits_append_eval "ohm".toList 'o' "hm".toList rfl (by decide) [] n ['m'] ['m'] hn rfl,
    replace_digits_append_eval "k".toList 'k' [] rfl (by decide) "e3".toList n ['m'] ['m'] hn rfl,
    replace_digits_append_eval "m".toList 'm' [] rfl (by decide) "e-3".toList n ['m'] ['e', '-', '3'] hn rfl,
    replace_digits_append_eval "M".toList 'M' [] rfl (by decide) "e6".toList n ['e', '-', '3'] ['e', '-', '3'] hn rfl]

end Components

open PyStr Components in
/-- C6 counterexample to the stated rewrite order: on `"1meohmg"` the source
order (spaces, `meg`→`m`, `Ohm`, `ohm`, `k`, `m`, `M`) yields the unparseable
`"1e-3eg"` (removing `ohm` creates the substring `meg` only after the
`meg`→`m` pass has already run), whereas the pipeline in the claim's order
(spaces and `Ohm`/`ohm` first, then `meg`→`m`, `k`, `m`, `M`) yields
`"1e-3"`, which parses to `1/1000`.  The two pipelines therefore differ, so
the claim's description of the order is not what the code does. -/
theorem C6_rewrite_order_counterexample :
    resistor_value_rewrite "1meohmg".toList = "1e-3eg".toList
    ∧ resistor_value_rewrite_claimed "1meohmg".toList = "1e-3".toList
    ∧ resistor_value_rewrite "1meohmg".toList
        ≠ resistor_value_rewrite_claimed "1meohmg".toList
    ∧ resistor_value_parserQ "1meohmg".toList = none
    ∧ floatOfChars? (resistor_value_rewrite_claimed "1meohmg".toList) = some (1 / 1000) := by
  refine ⟨by decide, by decide, by decide, by decide, ?_⟩
  rw [show resistor_value_rewrite_claimed "1meohmg".toList = "1e-3".toList from by decide,
    show ("1e-3".toList : List Char) = ['1'] ++ 'e' :: ['-', '3'] from rfl,
    floatOfChars?_append_exp ['1'] ['-', '3'] 1 (-3) (by decide) ?h1 (by decide),
    applyExp, if_neg (by decide), show (-(-3 : Int)).toNat = 3 from rfl]
  · norm_num
  case h1 =>
    rw [floatOfChars?_of_noExp ['1'] (by decide)]
    simp [parseMantissa?, splitOnChar, allDigitsB, isDigitB, digitsToNat, digVal,
      List.foldl, List.all]

open PyStr Components in
/-- C6 (amended): `resistor_value_parser` first removes spaces, then rewrites
`meg`→`m`, then removes `Ohm`/`ohm`, then rewrites `k`→`e3`, `m`→`e-3`,
`M`→`e6` before converting to float; consequently, for every decimal literal
`n` (of value `q`), `n ++ "k"` parses to `q * 1e3`, `n ++ "M"` parses to
`q * 1e6`, and both `n ++ "m"` and `n ++ "meg"` parse to `q * 1e-3` (the
`meg` suffix is not parsed as mega). -/
theorem C6_resistor_value_parser_amended (n : List Char) (q : ℚ)
    (hn : decimalLitB n = true) (hq : floatOfChars? n = some q) :
    resistor_value_parserQ (n ++ "k".toList) = some (q * 1000)
    ∧ resistor_value_parserQ (n ++ "M".toList) = some (q * 1000000)
    ∧ resistor_value_parserQ (n ++ "m".toList) = some (q / 1000)
    ∧ resistor_value_parserQ (n ++ "meg".toList) = some (q / 1000) := by
  have hnoexp := decimalLit_noExp n hn
  refine ⟨?_, ?_, ?_, ?_⟩
  · rw [resistor_value_parserQ, resistor_value_rewrite_k n hn,
      floatOfChars?_append_exp n ['3'] q 3 hnoexp hq (by decide),
      applyExp, if_pos (by decide), show Int.toNat 3 = 3 from rfl]
    norm_num
  · rw [resistor_value_parserQ, resistor_value_rewrite_M n hn,
      floatOfChars?_append_exp n ['6'] q 6 hnoexp hq (by decide),
      applyExp, if_pos (by decide), show Int.toNat 6 = 6 from rfl]
    norm_num
  · rw [resistor_value_parserQ, resistor_value_rewrite_m n hn,
      floatOfChars?_append_exp n ['-', '3'] q (-3) hnoexp hq (by decide),
      applyExp, if_neg (by decide), show (-(-3 : Int)).toNat = 3 from rfl]
    norm_num
  · rw [resistor_value_parserQ, resistor_value_rewrite_meg n hn,
      floatOfChars?_append_exp n ['-', '3'] q (-3) hnoexp hq (by decide),
      applyExp, if_neg (by decide), show (-(-3 : Int)).toNat = 3 from rfl]
    norm_num

open PyStr Components in
/-- Witness for the amended C6 at the decimal literal `"2"`. -/
theorem C6_resistor_value_parser_amended_witness :
    (decimalLitB ['2'] = true ∧ floatOfChars? ['2'] = some 2)
    ∧ (resistor_value_parserQ (['2'] ++ "k".toList) = some (2 * 1000)
    ∧ resistor_value_parserQ (['2'] ++ "M".toList) = some (2 * 1000000)
    ∧ resistor_value_parserQ (['2'] ++ "m".toList) = some (2 / 1000)
    ∧ resistor_value_parserQ (['2'] ++ "meg".toList) = some (2 / 1000)) :=
  ⟨⟨by decide, by
      rw [floatOfChars?_of_noExp ['2'] (by decide)]
      simp [parseMantissa?, splitOnChar, allDigitsB, isDigitB, digitsToNat, digVal,
        List.foldl, List.all]⟩,
    C6_resistor_value_parser_amended ['2'] 2 (by decide) (by
      rw [floatOfChars?_of_noExp ['2'] (by decide)]
      simp [parseMantissa?, splitOnChar, allDigitsB, isDigitB, digitsToNat, digVal,
        List.foldl, List.all])⟩

namespace Desktop

/-- Outcome of `Desktop.__init__` as far as the claims observe it. -/
inductive InitOutcome where
  /-- Construction proceeds past the version checks. -/
  | ok
  /-- Models a Python `AssertionError` with the given message. -/
  | assertionError (msg : List Char)
  /-- Models any other exception (e.g. the `version_keys` property raising
  while scanning a malformed environment). -/
  | otherError
deriving DecidableEq

/-- Interactions of `Desktop.__init__` with the vendor process. -/
inductive InitEvent where
  /-- Models reusing the already-present in-process `oDesktop` handle
  (lines 360–366): `RestoreWindow` on the existing object, no launch. -/
  | restoreExisting
  /-- Models the backend-specific launch-or-attach sequence that follows the
  version checks (lines 383–472: `CreateObjectNew`/`CreateObject`,
  `Dispatch`, running-object-table attach).  Those steps are pure
  external-process I/O whose detail none of the claims observe, so they are
  represented by one event carrying the arguments that select them. -/
  | launchOrAttach (com : ComBackend) (version_key : List Char) (ng alwaysNew : Bool)
deriving DecidableEq

/-- `Desktop.__init__` (`desktop.py`, lines 350–378) up to and including the
choice of version and the decision to launch: when a handle is present it is
reused; otherwise a truthy (non-`None`, non-empty) `specified_version` is
asserted to be among `version_keys` — with message
`"Specified version {} not known."` — before any launch, and a falsy one
falls back to `current_version`. -/
def desktop_init (com : ComBackend) (oDesktopPresent : Bool)
    (specified_version : Option (List Char)) (installed : List (List Char))
    (ng alwaysNew : Bool) : InitOutcome × List InitEvent :=
  if oDesktopPresent then
    (.ok, [.restoreExisting])
  else
    match specified_version with
    | some (c :: cs) =>
      match version_keys installed with
      | none => (.otherError, [])
      | some ks =>
        if (c :: cs) ∈ ks then
          (.ok, [.launchOrAttach com (c :: cs) ng alwaysNew])
        else
          (.assertionError
            ("Specified version ".toList ++ (c :: cs) ++ " not known.".toList), [])
    | _ =>
      match current_version installed with
      | none => (.otherError, [])
      | some vk => (.ok, [.launchOrAttach com vk ng alwaysNew])

end Desktop

open Desktop in
/-- C9 counterexample: `specified_version = ""` is non-`None` and not among
the derived keys, yet `Desktop.__init__` raises no assertion error — the
guard `if specified_version:` is falsy on the empty string, so the empty
string falls through to the `current_version` branch and a launch is
attempted. -/
theorem C9_specified_version_empty_counterexample :
    version_keys ["ANSYSEM_ROOT211".toList] = some ["2021.1".toList]
    ∧ (([] : List Char) ∉ ["2021.1".toList])
    ∧ desktop_init .pythonnet false (some []) ["ANSYSEM_ROOT211".toList] false true
        = (.ok, [.launchOrAttach .pythonnet "2021.1".toList false true]) := by
  decide

open Desktop in
/-- C9 (amended): when no AEDT desktop handle is present in the interpreter,
`Desktop.__init__` with a non-`None`, non-empty `specified_version` fails
with the assertion error "Specified version {} not known." exactly when
`specified_version` is not among the keys derived by `version_keys`, and in
that failing case no launch or attach of the vendor process is attempted. -/
theorem C9_specified_version_assertion (com : ComBackend) (v : List Char)
    (hv : v ≠ []) (installed ks : List (List Char))
    (hks : version_keys installed = some ks) (ng alwaysNew : Bool) :
    ((desktop_init com false (some v) installed ng alwaysNew).1
        = .assertionError ("Specified version ".toList ++ v ++ " not known.".toList)
      ↔ v ∉ ks)
    ∧ (v ∉ ks → (desktop_init com false (some v) installed ng alwaysNew).2 = []) := by
  obtain ⟨c, cs, rfl⟩ : ∃ c cs, v = c :: cs := by
    cases v with
    | nil => exact absurd rfl hv
    | cons c cs => exact ⟨c, cs, rfl⟩
  by_cases hmem : (c :: cs) ∈ ks
  · constructor
    · rw [desktop_init]
      simp [hks, hmem]
    · intro habs
      exact absurd hmem habs
  · constructor
    · rw [desktop_init]
      simp [hks, hmem]
    · intro _
      rw [desktop_init]
      simp [hks, hmem]

open Desktop in
/-- Witness for the amended C9: requesting the uninstalled version
`"2019.1"` against an installation list holding only `ANSYSEM_ROOT211`
raises the assertion error and attempts no launch. -/
theorem C9_specified_version_assertion_witness :
    ("2019.1".toList ≠ ([] : List Char)
      ∧ version_keys ["ANSYSEM_ROOT211".toList] = some ["2021.1".toList])
    ∧ (((desktop_init .pythonnet false (some "2019.1".toList)
            ["ANSYSEM_ROOT211".toList] false true).1
          = .assertionError
              ("Specified version ".toList ++ "2019.1".toList ++ " not known.".toList)
        ↔ "2019.1".toList ∉ ["2021.1".toList])
      ∧ ("2019.1".toList ∉ ["2021.1".toList] →
          (desktop_init .pythonnet false (some "2019.1".toList)
              ["ANSYSEM_ROOT211".toList] false true).2 = [])) :=
  ⟨⟨by decide, by decide⟩,
    C9_specified_version_assertion .pythonnet "2019.1".toList (by decide)
      ["ANSYSEM_ROOT211".toList] ["2021.1".toList] (by decide) false true⟩
